import Mathlib

/-!
# Verification of the bislericli checkout orchestration core

Shallow embedding of the HTML-scraping checkout CLI (Go sources under
`cmd/bislericli`, `internal/bisleri`, `internal/config`).  Pure Go string
helpers are translated to functions on `List Char` / `String`; the stateful
orchestration steps are translated to pure functions over explicit
environments recording the results of the HTTP calls each step issues.
`float64` currency amounts are modelled as `GoFloat`: an exact rational, a
signed infinity or NaN, compared with Go's semantics under which NaN
compares false with everything.  `strconv.ParseFloat` is modelled on its
full accepted syntax - the case-insensitive `inf`/`infinity`/`nan` special
forms, decimal and hexadecimal mantissas with optional sign, dot and
exponent, and the underscore-placement rule.  Rounding to the nearest
`float64` and the out-of-range (`ErrRange`) failure are the one
idealization: the model keeps exact rationals where Go rounds, and accepts
enormous exponents Go rejects.  Go's Unicode case folding and space classes
are modelled by their ASCII restrictions, which agree with Go on every
string the program manipulates.
-/

namespace BisleriCLI

/-! ## Go string primitives -/

/-- Does `p` occur as a leading segment of `l`?  Used to model
`strings.HasPrefix` and the scanning loops of the regex models. -/
def chStarts : List Char → List Char → Bool
  | [], _ => true
  | _ :: _, [] => false
  | p :: ps, c :: cs => p == c && chStarts ps cs

/-- Substring occurrence test on character lists (models `strings.Contains`). -/
def chHasSub : List Char → List Char → Bool
  | [], pat => pat.isEmpty
  | c :: t, pat => chStarts pat (c :: t) || chHasSub t pat

/-- Models `strings.Contains(s, sub)`. -/
def goContains (s sub : String) : Bool :=
  chHasSub s.toList sub.toList

/-- Models `strings.HasPrefix(s, p)` (also the `strings.HasPrefix` used by
`validateResponsePath`). -/
def goStartsWith (s p : String) : Bool :=
  chStarts p.toList s.toList

/-- Models `strings.ToLower` (ASCII restriction of Go's Unicode lowering;
every string the program lowers is ASCII). -/
def goToLower (s : String) : String :=
  String.mk (s.toList.map Char.toLower)

/-- Strip leading and trailing whitespace from a character list. -/
def trimWsList (l : List Char) : List Char :=
  ((l.dropWhile Char.isWhitespace).reverse.dropWhile Char.isWhitespace).reverse

/-- Models `strings.TrimSpace` (ASCII whitespace restriction). -/
def goTrimSpace (s : String) : String :=
  String.mk (trimWsList s.toList)

/-- Remove `p` from the front of `l`, or fail if it is not there. -/
def stripLead : List Char → List Char → Option (List Char)
  | [], l => some l
  | _ :: _, [] => none
  | p :: ps, c :: cs => if p = c then stripLead ps cs else none

/-- Models `strings.TrimPrefix(s, p)`: drop one leading copy of `p` when
present, else return `s` unchanged. -/
def goTrimLead (s p : String) : String :=
  match stripLead p.toList s.toList with
  | some rest => String.mk rest
  | none => s

/-- Models `strings.EqualFold` on the ASCII product identifiers the program
compares. -/
def goEqualFold (a b : String) : Bool :=
  goToLower a == goToLower b

/-! ## strconv.ParseFloat model

`ParseFloat(s, 64)` is modelled on the full syntax it accepts: the
case-insensitive special forms `inf`/`infinity` (optionally signed) and
`nan`, and decimal or hexadecimal mantissas with optional sign, at most one
dot, optional (decimal) / mandatory (hexadecimal) exponent, and Go's
underscore-placement rule.  Values are exact rationals extended by the two
infinities and NaN (`GoFloat`); rounding to the nearest `float64` and the
out-of-range error path are the one idealization. -/

/-- A parsed Go `float64`: a finite value (kept exact as a rational), a
signed infinity, or NaN. -/
inductive GoFloat where
  | finite (q : Rat)
  | inf (neg : Bool)
  | nan
deriving DecidableEq

/-- Go `float64` less-than: false whenever either side is NaN; the
infinities bound every finite value. -/
def GoFloat.lt : GoFloat → GoFloat → Bool
  | .nan, _ => false
  | _, .nan => false
  | .inf n1, .inf n2 => n1 && !n2
  | .inf n1, .finite _ => n1
  | .finite _, .inf n2 => !n2
  | .finite a, .finite b => decide (a < b)

/-- Go `float64` less-or-equal: false whenever either side is NaN. -/
def GoFloat.le : GoFloat → GoFloat → Bool
  | .nan, _ => false
  | _, .nan => false
  | .inf n1, .inf n2 => n1 || !n2
  | .inf n1, .finite _ => n1
  | .finite _, .inf n2 => !n2
  | .finite a, .finite b => decide (a ≤ b)

/-- Numeric value of a decimal digit character. -/
def digVal (c : Char) : Nat := c.toNat - '0'.toNat

/-- Value of a most-significant-first decimal digit list. -/
def natOfDigits (ds : List Char) : Nat :=
  ds.foldl (fun n c => n * 10 + digVal c) 0

/-- Numeric value of a hexadecimal digit character. -/
def hexVal (c : Char) : Nat :=
  if c.isDigit then c.toNat - '0'.toNat else c.toLower.toNat - 'a'.toNat + 10

/-- Value of a most-significant-first hexadecimal digit list. -/
def natOfHexDigits (ds : List Char) : Nat :=
  ds.foldl (fun n c => n * 16 + hexVal c) 0

/-- The hexadecimal-digit class of readFloat's mantissa scan. -/
def isHexDig (c : Char) : Bool :=
  c.isDigit || ('a' ≤ c.toLower && c.toLower ≤ 'f')

/-- Consume an optional leading sign; returns (isNegative, rest). -/
def splitSign : List Char → Bool × List Char
  | [] => (false, [])
  | c :: t => if c = '-' then (true, t) else if c = '+' then (false, t) else (false, c :: t)

/-- strconv's `special`: an optionally signed, case-insensitive `inf` or
`infinity`, or an unsigned `nan`, covering the whole string (ParseFloat
requires full consumption, so prefix matches shorter than the input fail
the caller's length check). -/
def parseSpecial (cs : List Char) : Option GoFloat :=
  match cs with
  | [] => none
  | c :: t =>
    if c = '-' ∨ c = '+' then
      if t.map Char.toLower = "inf".toList ∨ t.map Char.toLower = "infinity".toList then
        some (.inf (decide (c = '-')))
      else none
    else
      if cs.map Char.toLower = "inf".toList ∨ cs.map Char.toLower = "infinity".toList then
        some (.inf false)
      else if cs.map Char.toLower = "nan".toList then some .nan
      else none

/-- Does the sign-stripped text start with a hexadecimal base prefix? -/
def isHexPre : List Char → Bool
  | c0 :: c1 :: _ => c0 = '0' && c1.toLower = 'x'
  | _ => false

/-- State of strconv's `underscoreOK` scan: beginning of the number, a
digit (or base prefix), an underscore, or anything else. -/
inductive USaw where
  | start
  | digit
  | under
  | other
deriving DecidableEq

/-- The character loop of `underscoreOK`: an underscore must follow and be
followed by a digit (hexadecimal digits count in hex mode). -/
def underscoreScan (hexm : Bool) : USaw → List Char → Bool
  | saw, [] => decide (saw ≠ USaw.under)
  | saw, c :: t =>
    if c.isDigit || (hexm && ('a' ≤ c.toLower && c.toLower ≤ 'f')) then
      underscoreScan hexm .digit t
    else if c = '_' then
      if saw ≠ USaw.digit then false else underscoreScan hexm .under t
    else if saw = USaw.under then false
    else underscoreScan hexm .other t

/-- strconv's `underscoreOK`: after an optional sign and base prefix,
underscores may separate digits only (or follow the base prefix). -/
def underscoreOK (cs : List Char) : Bool :=
  let cs1 :=
    match cs with
    | c :: t => if c = '-' ∨ c = '+' then t else c :: t
    | [] => []
  match cs1 with
  | c0 :: c1 :: rest =>
    if c0 = '0' ∧ (c1.toLower = 'b' ∨ c1.toLower = 'o' ∨ c1.toLower = 'x') then
      underscoreScan (c1.toLower = 'x') .digit rest
    else underscoreScan false .start cs1
  | _ => underscoreScan false .start cs1

/-- Result of one digit scan of readFloat's reading loop. -/
structure ScanRes where
  digits : List Char
  sawUnderscore : Bool
  rest : List Char
deriving DecidableEq

/-- One digit scan: consume digits (per `dig`) and underscores, recording
whether an underscore was seen (its placement is validated at the end by
`underscoreOK`, as in readFloat). -/
def scanDigitsU (dig : Char → Bool) : List Char → ScanRes
  | [] => ⟨[], false, []⟩
  | c :: t =>
    if c = '_' then
      let r := scanDigitsU dig t
      ⟨r.digits, true, r.rest⟩
    else if dig c then
      let r := scanDigitsU dig t
      ⟨c :: r.digits, r.sawUnderscore, r.rest⟩
    else ⟨[], false, c :: t⟩

/-- The exact rational `± m * b^e`. -/
def scaledRat (neg : Bool) (m : Nat) (b : Nat) (e : Int) : Rat :=
  let sm : Int := if neg then -(m : Int) else (m : Int)
  if 0 ≤ e then mkRat (sm * (b : Int) ^ e.toNat) 1 else mkRat sm (b ^ (-e).toNat)

/-- The tail of readFloat: reject a bad underscore placement, then build
the value - a decimal mantissa scales by ten per fractional digit, a
hexadecimal one by sixteen (four binary exponent steps), with the written
exponent on base ten respectively two. -/
def finalizeFloat (hexm neg : Bool) (mant : List Char) (fracLen : Nat) (e : Int)
    (sawU : Bool) (orig : List Char) : Option GoFloat :=
  if sawU && !underscoreOK orig then none
  else
    let m : Nat := if hexm then natOfHexDigits mant else natOfDigits mant
    let eAdj : Int := if hexm then e - 4 * fracLen else e - fracLen
    some (.finite (scaledRat neg m (if hexm then 2 else 10) eAdj))

/-- readFloat's mantissa-and-exponent phase over the text after sign and
base prefix: at most one dot inside the mantissa, at least one mantissa
digit, then an optional `e`-exponent (decimal) or a mandatory `p`-exponent
(hexadecimal), and nothing else; `orig` is the full text for the
underscore-placement validation. -/
def parseMantExp (hexm neg : Bool) (body orig : List Char) : Option GoFloat :=
  let dig : Char → Bool := if hexm then isHexDig else Char.isDigit
  let m1 := scanDigitsU dig body
  let fracScan : ScanRes :=
    match m1.rest with
    | c :: t => if c = '.' then scanDigitsU dig t else ⟨[], false, c :: t⟩
    | [] => ⟨[], false, []⟩
  let mant := m1.digits ++ fracScan.digits
  let fracLen := fracScan.digits.length
  let sawU := m1.sawUnderscore || fracScan.sawUnderscore
  if mant.isEmpty then none
  else
    match fracScan.rest with
    | [] =>
      if hexm then none
      else finalizeFloat hexm neg mant fracLen 0 sawU orig
    | c :: t =>
      if c.toLower = (if hexm then 'p' else 'e') then
        let eneg := (splitSign t).1
        let t1 := (splitSign t).2
        let es := scanDigitsU Char.isDigit t1
        if es.digits.isEmpty || !es.rest.isEmpty then none
        else
          finalizeFloat hexm neg mant fracLen
            (if eneg then -(natOfDigits es.digits : Int) else (natOfDigits es.digits : Int))
            (sawU || es.sawUnderscore) orig
      else none

/-- `strconv.ParseFloat(s, 64)` on a character list: the special forms
first, then the decimal or hexadecimal number syntax. -/
def goParseFloatCh (cs : List Char) : Option GoFloat :=
  match parseSpecial cs with
  | some v => some v
  | none =>
    let neg := (splitSign cs).1
    let cs1 := (splitSign cs).2
    if isHexPre cs1 then parseMantExp true neg (cs1.drop 2) cs
    else parseMantExp false neg cs1 cs

/-- Models `strconv.ParseFloat(s, 64)` (see `goParseFloatCh`). -/
def goParseFloat (s : String) : Option GoFloat :=
  goParseFloatCh s.toList

/-- The cleaning pipeline at the top of `bisleri.ParseINRAmount`: trim
space, strip one currency symbol, delete every comma
(`strings.ReplaceAll(clean, ",", "")`). -/
def inrClean (value : String) : String :=
  String.mk ((goTrimLead (goTrimSpace value) "₹").toList.filter (fun c => c != ','))

/-- Models `bisleri.ParseINRAmount` (`internal/bisleri/parser.go`): clean
the text, fail on empty, parse the rest with Go float syntax.  `none` is
Go's `(0, false)` and `some r` is `(r, true)`. -/
def ParseINRAmount (value : String) : Option GoFloat :=
  if inrClean value = "" then none else goParseFloat (inrClean value)

/-! ### Decimal formatting, for the round-trip property -/

/-- The character of a decimal digit value. -/
def digitChar (d : Nat) : Char := Char.ofNat (48 + d)

/-- Characters of a digit-value list. -/
def digitsToChars (ds : List Nat) : List Char := ds.map digitChar

/-- Value of a digit-value list. -/
def natOfDigitVals (ds : List Nat) : Nat :=
  ds.foldl (fun n d => n * 10 + d) 0

/-- The amount whose decimal numeral has integer digits `ds` and fractional
digits `fs`. -/
def decValue (ds fs : List Nat) : Rat :=
  mkRat (natOfDigitVals (ds ++ fs) : Int) ((10 : Nat) ^ fs.length)

/-- `₹<value>`: the amount formatted the way the site (and the spec's
round-trip property) writes it, e.g. `₹250` or `₹1.50`. -/
def formatINR (ds fs : List Nat) : String :=
  String.mk ('₹' :: (digitsToChars ds ++ (if fs.isEmpty then [] else '.' :: digitsToChars fs)))

/-! ## Cart data model and reconciliation stage (`runOrder`, `parser.go`) -/

/-- The `productID20L` constant of `cmd/bislericli/main.go`. -/
def productID20L : String := "BIS-20LTR01-90"

/-- One parsed cart line (`bisleri.CartItem`).  `quantity` is the observed
quantity, which the extraction chain may report as `0` even when the line
exists. -/
structure CartItem where
  productID : String
  uuid : String
  quantity : Nat
deriving DecidableEq

/-- The values the orchestrator extracts from one fetched cart page:
`ExtractCartItems` and `ExtractCartCount` (whose `none` is Go's
`found=false`). -/
structure CartView where
  items : List CartItem
  count : Option Nat
deriving DecidableEq

/-- The allow-list built at the top of `filterExtraItems`. -/
def allowedCartIDs (productID : String) : List String :=
  [goToLower productID, goToLower "Bis-20LTREmpty-Product",
   goToLower "Bis-20LTRDeposit-Amount-Product"]

/-- Models `filterExtraItems` (`cmd/bislericli/main.go`): every cart line
whose trimmed lowercased product id is not on the allow-list contributes its
product id (or the placeholder for a blank id) to the result, in cart
order. -/
def filterExtraItems : List CartItem → String → List String
  | [], _ => []
  | item :: rest, productID =>
    let id := goToLower (goTrimSpace item.productID)
    if id = "" then "unknown-item" :: filterExtraItems rest productID
    else if (allowedCartIDs productID).contains id then filterExtraItems rest productID
    else item.productID :: filterExtraItems rest productID

/-- Models `bisleri.ExtractCartItem` applied to the already-extracted item
list: the first line whose product id case-folds to `pid`. -/
def extractCartItem : List CartItem → String → Option (String × Nat)
  | [], _ => none
  | item :: rest, pid =>
    if goEqualFold item.productID pid then some (item.uuid, item.quantity)
    else extractCartItem rest pid

/-- The cart-page network calls the reconciliation stage can issue. -/
inductive CartAction where
  | updateQuantity (productID uuid : String) (qty : Nat)
  | addProduct (productID : String) (qty : Nat)
deriving DecidableEq

/-- The abort reasons of the cart reconciliation stage of `runOrder`.
`extraItems` carries the offending names that Go joins with a comma into
the error message. -/
inductive ReconcileError where
  | unparsableItems
  | extraItems (names : List String)
  | cartNotEmpty
deriving DecidableEq

/-- The guard `ok && count > 0 && len(cartItems) == 0` of `runOrder`. -/
def cartParseFailure (v : CartView) : Bool :=
  match v.count with
  | some c => decide (0 < c) && v.items.isEmpty
  | none => false

/-- The branch of `runOrder` taken when the target product line is absent
(or its uuid is blank): refuse a non-empty cart without the override, else
add the product. -/
def reconcileAddBranch (v : CartView) (quantity : Nat) (allowExtra : Bool) :
    Except ReconcileError (List CartAction) :=
  if !v.items.isEmpty && !allowExtra then .error .cartNotEmpty
  else .ok [.addProduct productID20L quantity]

/-- The cart reconciliation stage of `runOrder` (lines 431-460 of
`cmd/bislericli/main.go`), as a pure function of the extracted cart view:
either an abort reason - at which point no cart call has been issued - or
the list of cart calls the stage issues. -/
def reconcileCart (v : CartView) (quantity : Nat) (allowExtra : Bool) :
    Except ReconcileError (List CartAction) :=
  if cartParseFailure v then .error .unparsableItems
  else
    let extras := filterExtraItems v.items productID20L
    if !extras.isEmpty && !allowExtra then .error (.extraItems extras)
    else
      match extractCartItem v.items productID20L with
      | some (uuid, existingQty) =>
        if uuid ≠ "" then
          if existingQty ≠ quantity then .ok [.updateQuantity productID20L uuid quantity]
          else .ok []
        else reconcileAddBranch v quantity allowExtra
      | none => reconcileAddBranch v quantity allowExtra

/-- The add-product or update-quantity calls a reconciliation result issues:
none on the abort paths, since `runOrder` returns before reaching them. -/
def reconcileActions (r : Except ReconcileError (List CartAction)) : List CartAction :=
  match r with
  | .ok as => as
  | .error _ => []

/-! ## Cart-quantity confirmation loop (`confirmCartQuantity`) -/

/-- Result of one `FetchCartPage` call inside the confirmation loop. -/
inductive FetchResult where
  | notAuth
  | failed
  | page (v : CartView)
deriving DecidableEq

/-- Result of one `UpdateQuantity` call. -/
inductive UpdateResult where
  | ok
  | failed
deriving DecidableEq

/-- The network results one iteration of the confirmation loop can consume:
the cart fetch and up to two quantity-update calls, in call order. -/
structure AttemptEnv where
  fetch : FetchResult
  update1 : UpdateResult
  update2 : UpdateResult
deriving DecidableEq

/-- The `lastErr` values one loop iteration can record before retrying. -/
inductive AttemptError where
  | fetchFailed
  | unparsableItems
  | updateFailed
  | quantityCorrected (old new : Nat)
  | cartStillEmpty
  | notYetVisible
deriving DecidableEq

/-- The reasons `confirmCartQuantity` returns without exhausting its
attempts. -/
inductive ConfirmFatal where
  | notAuthenticated
  | extraItems (names : List String)
deriving DecidableEq

/-- Outcome of one loop iteration: an immediate `return nil`, an immediate
`return err`, or fall-through to the next attempt with the recorded
`lastErr`. -/
inductive AttemptOutcome where
  | success
  | fatal (e : ConfirmFatal)
  | retry (e : AttemptError)
deriving DecidableEq

/-- The `else if count == 0 / else` tail of a loop iteration when the
target product line was not found with a usable uuid. -/
def attemptNotFound (v : CartView) : AttemptOutcome :=
  match v.count with
  | some c => if c = 0 then .retry .cartStillEmpty else .retry .notYetVisible
  | none => .retry .notYetVisible

/-- One iteration of the `confirmCartQuantity` loop (lines 1022-1061 of
`cmd/bislericli/main.go`), as a pure function of that iteration's network
results. -/
def runAttempt (env : AttemptEnv) (quantity : Nat) (allowExtra : Bool) : AttemptOutcome :=
  match env.fetch with
  | .notAuth => .fatal .notAuthenticated
  | .failed => .retry .fetchFailed
  | .page v =>
    if cartParseFailure v then .retry .unparsableItems
    else
      let extras := filterExtraItems v.items productID20L
      if !extras.isEmpty && !allowExtra then .fatal (.extraItems extras)
      else
        match extractCartItem v.items productID20L with
        | some (uuid, existingQty) =>
          if uuid ≠ "" then
            if existingQty = 0 then
              match env.update1 with
              | .ok => .success
              | .failed =>
                if existingQty = quantity then .success
                else
                  match env.update2 with
                  | .ok => .retry (.quantityCorrected existingQty quantity)
                  | .failed => .retry .updateFailed
            else if existingQty = quantity then .success
            else
              match env.update1 with
              | .ok => .retry (.quantityCorrected existingQty quantity)
              | .failed => .retry .updateFailed
          else attemptNotFound v
        | none => attemptNotFound v

/-- The error `confirmCartQuantity` finally returns. -/
inductive ConfirmError where
  | fatal (e : ConfirmFatal)
  | unconfirmed (last : AttemptError)
deriving DecidableEq

instance instDecEqExcept {ε α : Type} [DecidableEq ε] [DecidableEq α] :
    DecidableEq (Except ε α) := fun a b =>
  match a, b with
  | .ok x, .ok y =>
    if h : x = y then .isTrue (by rw [h]) else .isFalse (by intro hc; cases hc; exact h rfl)
  | .error e, .error f =>
    if h : e = f then .isTrue (by rw [h]) else .isFalse (by intro hc; cases hc; exact h rfl)
  | .ok _, .error _ => .isFalse (by intro hc; cases hc)
  | .error _, .ok _ => .isFalse (by intro hc; cases hc)

/-- What a run of the confirmation loop did: its result, the number of
iterations executed, and the milliseconds slept between successive
iterations. -/
structure ConfirmRun where
  result : Except ConfirmError Unit
  attempts : Nat
  delays : List Nat
deriving DecidableEq

/-- `const maxAttempts = 4` in `confirmCartQuantity`. -/
def confirmMaxAttempts : Nat := 4

/-- The `for attempt := 1; attempt <= maxAttempts; attempt++` loop of
`confirmCartQuantity`, with `fuel` the number of iterations still allowed
(`maxAttempts - attempt + 1`); the sleep before a further iteration lasts
`attempt * 500` milliseconds. -/
def confirmFrom (envs : Nat → AttemptEnv) (quantity : Nat) (allowExtra : Bool) :
    Nat → Nat → ConfirmRun
  | _, 0 => ⟨.ok (), 0, []⟩
  | attempt, fuel + 1 =>
    match runAttempt (envs attempt) quantity allowExtra with
    | .success => ⟨.ok (), 1, []⟩
    | .fatal e => ⟨.error (.fatal e), 1, []⟩
    | .retry e =>
      if fuel = 0 then ⟨.error (.unconfirmed e), 1, []⟩
      else
        let rest := confirmFrom envs quantity allowExtra (attempt + 1) fuel
        ⟨rest.result, rest.attempts + 1, attempt * 500 :: rest.delays⟩

/-- Models `confirmCartQuantity` (`cmd/bislericli/main.go`): `envs n` holds
the network results of iteration `n` (1-based). -/
def confirmCartQuantity (envs : Nat → AttemptEnv) (quantity : Nat) (allowExtra : Bool) :
    ConfirmRun :=
  confirmFrom envs quantity allowExtra 1 confirmMaxAttempts

/-! ## Order placement (`Client.PlaceOrder`, `internal/bisleri/orders.go`) -/

/-- The unfollowed response to the wallet place-order request: its HTTP
status and `Location` header (`""` models an absent header, as Go's
`Header.Get` does). -/
structure RedirectResponse where
  status : Nat
  location : String
deriving DecidableEq

/-- Models `orderIDRegex.FindStringSubmatch`, pattern `orderID=([^&]+)`:
the capture of the leftmost position where the whole pattern matches. -/
def findOrderID : List Char → Option String
  | [] => none
  | c :: t =>
    match stripLead "orderID=".toList (c :: t) with
    | some rest =>
      let cap := rest.takeWhile (fun x => x != '&')
      if cap.isEmpty then findOrderID t else some (String.mk cap)
    | none => findOrderID t

/-- The failure modes of order placement, as seen by `runOrder`. -/
inductive PlaceOrderError where
  | badStatus (status : Nat)
  | noLocation
  | unexpectedLocation (location : String)
  | emptyOrderID
deriving DecidableEq

/-- Models `Client.PlaceOrder` (`internal/bisleri/orders.go`): requires
status 302 or 303, a non-empty `Location` containing `/orderplaced`, then
extracts the order id - returning `ok ""` (Go's `return "", nil`) when the
id pattern does not match. -/
def PlaceOrder (resp : RedirectResponse) : Except PlaceOrderError String :=
  if resp.status ≠ 302 ∧ resp.status ≠ 303 then .error (.badStatus resp.status)
  else if resp.location = "" then .error .noLocation
  else if !goContains resp.location "/orderplaced" then .error (.unexpectedLocation resp.location)
  else
    match findOrderID resp.location.toList with
    | some id => .ok id
    | none => .ok ""

/-- The order flow's view of placement (`runOrder` lines 654-661): a blank
order id from `PlaceOrder` is converted into a failure. -/
def orderPlacementOutcome (resp : RedirectResponse) : Except PlaceOrderError String :=
  match PlaceOrder resp with
  | .error e => .error e
  | .ok id => if id = "" then .error .emptyOrderID else .ok id

/-! ## CSRF token extraction (`ExtractCSRFToken`, `internal/bisleri/parser.go`) -/

/-- One `input` element of the parsed document: its `name` attribute and
its `value` attribute (`none` when the attribute is absent). -/
structure InputEl where
  name : String
  value : Option String
deriving DecidableEq

/-- A fetched page, as the two extraction strategies see it: the raw markup
the regex scans, and the document's `input` elements in document order as
goquery parses them from that same markup. -/
structure HtmlDoc where
  raw : String
  inputs : List InputEl
deriving DecidableEq

/-- The quote class `["']` of `csrfRegex`. -/
def isQuote (c : Char) : Bool := c == '"' || c.toNat == 39

/-- Go regexp's `\s` class: `[\t\n\f\r ]`. -/
def isRegexSpace (c : Char) : Bool :=
  c == ' ' || c == '\t' || c == '\n' || c.toNat == 12 || c == '\r'

/-- Match of the full pattern
`name=["']csrf_token["']\s+value=["']([^"']+)["']` anchored at the current
position, returning the capture. -/
def matchCsrfAt (cs : List Char) : Option String :=
  match stripLead "name=".toList cs with
  | none => none
  | some r1 =>
    match r1 with
    | [] => none
    | q1 :: r2 =>
      if !isQuote q1 then none
      else
        match stripLead "csrf_token".toList r2 with
        | none => none
        | some r3 =>
          match r3 with
          | [] => none
          | q2 :: r4 =>
            if !isQuote q2 then none
            else
              let ws := r4.takeWhile isRegexSpace
              let r5 := r4.dropWhile isRegexSpace
              if ws.isEmpty then none
              else
                match stripLead "value=".toList r5 with
                | none => none
                | some r6 =>
                  match r6 with
                  | [] => none
                  | q3 :: r7 =>
                    if !isQuote q3 then none
                    else
                      let cap := r7.takeWhile (fun c => !isQuote c)
                      let r8 := r7.dropWhile (fun c => !isQuote c)
                      if cap.isEmpty then none
                      else
                        match r8 with
                        | [] => none
                        | _ :: _ => some (String.mk cap)

/-- Leftmost match of `csrfRegex` over the raw markup
(`csrfRegex.FindStringSubmatch`). -/
def csrfRegexFindCh : List Char → Option String
  | [] => none
  | c :: t =>
    match matchCsrfAt (c :: t) with
    | some tok => some tok
    | none => csrfRegexFindCh t

/-- `csrfRegex.FindStringSubmatch(html)` returning the capture group. -/
def csrfRegexFind (s : String) : Option String := csrfRegexFindCh s.toList

/-- The DOM strategy `doc.Find("input[name=csrf_token]").Attr("value")`
with the `ok && val != ""` guard: value of the first input named
`csrf_token`, if that input has a non-empty value attribute. -/
def domCsrfValue (doc : HtmlDoc) : Option String :=
  match doc.inputs.find? (fun el => el.name == "csrf_token") with
  | none => none
  | some el =>
    match el.value with
    | some v => if v ≠ "" then some v else none
    | none => none

/-- Models `bisleri.ExtractCSRFToken` (`internal/bisleri/parser.go` lines
51-64): regex over the raw markup first, DOM lookup second, error when
neither yields a value. -/
def ExtractCSRFToken (doc : HtmlDoc) : Except Unit String :=
  match csrfRegexFind doc.raw with
  | some tok => .ok tok
  | none =>
    match domCsrfValue doc with
    | some v => .ok v
    | none => .error ()

/-- Refinement reference, following the spec's words (§4.1): search the
input field by name in the DOM first, apply the regex over raw markup only
if that yields no value. -/
def specOrderedCSRFToken (doc : HtmlDoc) : Except Unit String :=
  match domCsrfValue doc with
  | some v => .ok v
  | none =>
    match csrfRegexFind doc.raw with
    | some tok => .ok tok
    | none => .error ()

/-! ## Redirect-path classification (`validateResponsePath`, client) -/

/-- Classification of a response's final request path. -/
inductive PathValidation where
  | ok
  | notAuthenticated
  | unexpectedRedirect (path : String)
deriving DecidableEq

/-- Models `validateResponsePath` (session client) for a response that has
a final request path: accept when the expected path is blank or the landed
path starts with it, else classify root/empty/login-account-home paths as
session expiry and anything else as an unexpected redirect carrying the
landed path. -/
def validateResponsePath (path expectedPre : String) : PathValidation :=
  if expectedPre = "" || goStartsWith path expectedPre then .ok
  else
    let lower := goToLower path
    if path = "/" || path = "" then .notAuthenticated
    else if goContains lower "login" || goContains lower "account" || goContains lower "home" then
      .notAuthenticated
    else .unexpectedRedirect path

/-! ## Profile path resolution (`config.ProfilePath`, `internal/config/config.go`) -/

/-- Does the name contain a path separator (`strings.ContainsAny(name,
"/\\")`, backslash written by code point)? -/
def containsPathSep (s : String) : Bool :=
  s.toList.any (fun c => c == '/' || c.toNat == 92)

/-- `filepath.Base` restricted to separator-free names, the only names that
reach it in `validateProfileName`: identity except on the empty string. -/
def goFilepathBase (name : String) : String :=
  if name = "" then "." else name

/-- The error cases of `ProfilePath`. -/
inductive ConfigError where
  | emptyName
  | invalidName
deriving DecidableEq

/-- Models `config.validateProfileName`. -/
def validateProfileName (name : String) : Except ConfigError Unit :=
  if goContains name ".." || containsPathSep name then .error .invalidName
  else if goFilepathBase name ≠ name then .error .invalidName
  else .ok ()

/-- Models `config.ProfilePath` with the profiles directory `dir` passed
explicitly; `filepath.Join(dir, name + ".json")` is modelled as plain
concatenation, which agrees with Go because `dir` is a clean absolute path
and the accepted component contains no separator and is never `.` or
`..` (it always ends in `.json`). -/
def ProfilePath (dir name : String) : Except ConfigError String :=
  if name = "" then .error .emptyName
  else
    match validateProfileName name with
    | .error e => .error e
    | .ok _ => .ok (dir ++ "/" ++ name ++ ".json")

/-! ## The order command's run (`runOrder`, part_001 lines 364-675)

`run()` dispatches the `order` subcommand straight to `runOrder`, which
executes the order pipeline as a straight-line sequence of stages and
returns the first stage error unchanged - in particular, when
`VerifyAuthenticated` fails (lines 418-420) or `FetchCartPage` fails with
`ErrNotAuthenticated` (lines 463-465) the function returns that error
immediately: there is no confirmation prompt, no session refresh and no
retry anywhere in it.  The skeleton below keeps the stage order and the
abort-on-first-error control flow, abstracting each stage's outcome. -/

/-- The error `runOrder` returns: `ErrNotAuthenticated` propagated from
`VerifyAuthenticated` / `FetchCartPage`, or any other stage error. -/
inductive OrderRunError where
  | notAuthenticated
  | other (msg : String)
deriving DecidableEq

/-- Outcome of one stage of `runOrder`. -/
inductive OrderStepOutcome where
  | ok
  | notAuthenticated
  | failed (msg : String)
deriving DecidableEq

/-- The stages of `runOrder`, in source order. -/
inductive OrderStep where
  | verifySession
  | prepareCart
  | setReturnJars
  | fetchShipping
  | submitShipping
  | fetchPayment
  | submitPayment
  | placeOrder
deriving DecidableEq

/-- `runOrder`'s stage sequence (part_001 lines 417-667). -/
def orderSteps : List OrderStep :=
  [.verifySession, .prepareCart, .setReturnJars, .fetchShipping,
   .submitShipping, .fetchPayment, .submitPayment, .placeOrder]

/-- What a run of `runOrder` did: its result and the stages it executed. -/
structure StagedRun where
  result : Except OrderRunError Unit
  executed : List OrderStep
deriving DecidableEq

/-- Run the remaining stages in order, stopping at the first failing one
and returning its error - the `if err != nil { return err }` chain of
`runOrder`. -/
def runOrderStagedAux (outcome : OrderStep → OrderStepOutcome) :
    List OrderStep → StagedRun
  | [] => ⟨.ok (), []⟩
  | s :: rest =>
    match outcome s with
    | .ok =>
      let r := runOrderStagedAux outcome rest
      ⟨r.result, s :: r.executed⟩
    | .notAuthenticated => ⟨.error .notAuthenticated, [s]⟩
    | .failed m => ⟨.error (.other m), [s]⟩

/-- `runOrder` as a function of each stage's outcome: run the stages of
`orderSteps` in order, aborting at the first failure. -/
def runOrderStaged (outcome : OrderStep → OrderStepOutcome) : StagedRun :=
  runOrderStagedAux outcome orderSteps

/-! ## Payment-stage guard (`runOrder` lines 600-653) -/

/-- How the payment stage of `runOrder` proceeds after fetching the payment
page: either reach the `SubmitPayment` call or return one of the guard
errors first. -/
inductive PaymentDecision where
  | submitPayment
  | abortNoTotal
  | abortUnparsableTotal (total : String)
  | abortInvalidTotal (total : String)
  | abortInsufficientBalance (balance total : String)
deriving DecidableEq

/-- The total/balance guard of `runOrder` (lines 608-651), as a function of
the payment page's `ExtractOrderTotal` and `ExtractWalletBalance` results
(`none` is Go's `ok=false`).  `submitPayment` means control reaches the
`client.SubmitPayment` call; every other constructor is a `return err`
before that call. -/
def paymentGuard (totalExtract balanceExtract : Option String) : PaymentDecision :=
  match totalExtract with
  | none => .abortNoTotal
  | some total =>
    match ParseINRAmount total with
    | none => .abortUnparsableTotal total
    | some totalAmount =>
      if GoFloat.le totalAmount (.finite 0) then .abortInvalidTotal total
      else
        match balanceExtract with
        | none => .submitPayment
        | some balance =>
          match ParseINRAmount balance with
          | none => .submitPayment
          | some balAmount =>
            if GoFloat.lt balAmount totalAmount then .abortInsufficientBalance balance total
            else .submitPayment

/-! ## Shared list and character lemmas -/

theorem dropWhile_eq_self_of_none {α : Type} {p : α → Bool} {l : List α}
    (h : ∀ c ∈ l, p c = false) : l.dropWhile p = l := by
  cases l with
  | nil => rfl
  | cons a t => simp [List.dropWhile, h a (List.mem_cons_self a t)]

theorem takeWhile_eq_nil_of_none {α : Type} {p : α → Bool} {l : List α}
    (h : ∀ c ∈ l, p c = false) : l.takeWhile p = [] := by
  cases l with
  | nil => rfl
  | cons a t => simp [List.takeWhile, h a (List.mem_cons_self a t)]

theorem mem_dropWhile {α : Type} {p : α → Bool} :
    ∀ {l : List α} {c : α}, c ∈ l.dropWhile p → c ∈ l := by
  intro l
  induction l with
  | nil => intro c h; simp at h
  | cons a t ih =>
    intro c h
    by_cases hp : p a
    · simp [List.dropWhile, hp] at h
      exact List.mem_cons_of_mem a (ih h)
    · simp [List.dropWhile, hp] at h
      simpa using h

theorem mem_takeWhile {α : Type} {p : α → Bool} :
    ∀ {l : List α} {c : α}, c ∈ l.takeWhile p → c ∈ l := by
  intro l
  induction l with
  | nil => intro c h; simp at h
  | cons a t ih =>
    intro c h
    by_cases hp : p a
    · simp [List.takeWhile, hp] at h
      rcases h with h | h
      · simp [h]
      · exact List.mem_cons_of_mem a (ih h)
    · simp [List.takeWhile, hp] at h

theorem mem_trimWsList {l : List Char} {c : Char} (h : c ∈ trimWsList l) : c ∈ l := by
  unfold trimWsList at h
  rw [List.mem_reverse] at h
  have h1 := mem_dropWhile h
  rw [List.mem_reverse] at h1
  exact mem_dropWhile h1

theorem trimWsList_eq_self {l : List Char} (h : ∀ c ∈ l, c.isWhitespace = false) :
    trimWsList l = l := by
  unfold trimWsList
  rw [dropWhile_eq_self_of_none h]
  rw [dropWhile_eq_self_of_none (fun c hc => h c (List.mem_reverse.mp hc))]
  exact List.reverse_reverse l

theorem stripLead_append : ∀ (p r : List Char), stripLead p (p ++ r) = some r := by
  intro p
  induction p with
  | nil => intro r; rfl
  | cons a t ih => intro r; simp [stripLead, ih]

theorem mem_of_stripLead : ∀ {p l r : List Char}, stripLead p l = some r →
    ∀ {c : Char}, c ∈ r → c ∈ l := by
  intro p
  induction p with
  | nil => intro l r h c hc; cases h; exact hc
  | cons a t ih =>
    intro l r h c hc
    cases l with
    | nil => cases h
    | cons b bs =>
      by_cases hab : a = b
      · simp [stripLead, hab] at h
        exact List.mem_cons_of_mem b (ih h hc)
      · simp [stripLead, hab] at h

theorem takeWhile_append_all {α : Type} {p : α → Bool} :
    ∀ {l : List α} (r : List α), (∀ c ∈ l, p c = true) →
      List.takeWhile p (l ++ r) = l ++ List.takeWhile p r := by
  intro l
  induction l with
  | nil => intro r _; rfl
  | cons a t ih =>
    intro r h
    have ha := h a (List.mem_cons_self a t)
    simp only [List.cons_append, List.takeWhile, ha, List.append_eq]
    rw [ih r (fun c hc => h c (List.mem_cons_of_mem a hc))]

theorem dropWhile_append_all {α : Type} {p : α → Bool} :
    ∀ {l : List α} (r : List α), (∀ c ∈ l, p c = true) →
      List.dropWhile p (l ++ r) = List.dropWhile p r := by
  intro l
  induction l with
  | nil => intro r _; rfl
  | cons a t ih =>
    intro r h
    have ha := h a (List.mem_cons_self a t)
    simp only [List.cons_append, List.dropWhile, ha, List.append_eq]
    exact ih r (fun c hc => h c (List.mem_cons_of_mem a hc))

theorem mem_splitSign_snd : ∀ {l : List Char} {c : Char}, c ∈ (splitSign l).2 → c ∈ l := by
  intro l c h
  cases l with
  | nil => simp [splitSign] at h
  | cons a t =>
    by_cases ha : a = '-'
    · simp [splitSign, ha] at h
      simp [ha, List.mem_cons_of_mem _ h]
    · by_cases hb : a = '+'
      · simp [splitSign, ha, hb] at h
        exact List.mem_cons_of_mem a h
      · simpa [splitSign, ha, hb] using h

theorem splitSign_neg_mem {l : List Char} (h : (splitSign l).1 = true) : '-' ∈ l := by
  cases l with
  | nil => simp [splitSign] at h
  | cons a t =>
    by_cases ha : a = '-'
    · simp [ha]
    · by_cases hb : a = '+'
      · simp [splitSign, ha, hb] at h
      · simp [splitSign, ha, hb] at h

theorem splitSign_of_digit {c : Char} (t : List Char) (h : c.isDigit = true) :
    splitSign (c :: t) = (false, c :: t) := by
  have h1 : c ≠ '-' := by
    intro he; rw [he] at h; simp [Char.isDigit] at h
  have h2 : c ≠ '+' := by
    intro he; rw [he] at h; simp [Char.isDigit] at h
  simp [splitSign, h1, h2]

/-! ## Currency parsing lemmas (towards C7 and C1) -/

theorem mem_goTrimLead {s p : String} {c : Char} (h : c ∈ (goTrimLead s p).toList) :
    c ∈ s.toList := by
  unfold goTrimLead at h
  cases hs : stripLead p.toList s.toList with
  | some r =>
    rw [hs] at h
    exact mem_of_stripLead hs h
  | none =>
    rw [hs] at h
    exact h

theorem mem_inrClean {s : String} {c : Char} (h : c ∈ (inrClean s).toList) : c ∈ s.toList := by
  unfold inrClean at h
  have h1 : c ∈ (goTrimLead (goTrimSpace s) "₹").toList := List.mem_of_mem_filter h
  have h2 : c ∈ (goTrimSpace s).toList := mem_goTrimLead h1
  exact mem_trimWsList h2

theorem mem_scanDigitsU_digits (dig : Char → Bool) :
    ∀ {l : List Char} {c : Char}, c ∈ (scanDigitsU dig l).digits → dig c = true ∧ c ∈ l := by
  intro l
  induction l with
  | nil =>
    intro c hc
    exact absurd hc (List.not_mem_nil c)
  | cons a t ih =>
    intro c hc
    simp only [scanDigitsU] at hc
    split at hc
    · obtain ⟨h1, h2⟩ := ih hc
      exact ⟨h1, List.mem_cons_of_mem a h2⟩
    · split at hc
      · rename_i ha hd
        rcases List.mem_cons.mp hc with rfl | hc2
        · exact ⟨hd, List.mem_cons_self c t⟩
        · obtain ⟨h1, h2⟩ := ih hc2
          exact ⟨h1, List.mem_cons_of_mem a h2⟩
      · exact absurd hc (List.not_mem_nil c)

theorem mem_scanDigitsU_rest (dig : Char → Bool) :
    ∀ {l : List Char} {c : Char}, c ∈ (scanDigitsU dig l).rest → c ∈ l := by
  intro l
  induction l with
  | nil =>
    intro c hc
    exact absurd hc (List.not_mem_nil c)
  | cons a t ih =>
    intro c hc
    simp only [scanDigitsU] at hc
    split at hc
    · exact List.mem_cons_of_mem a (ih hc)
    · split at hc
      · exact List.mem_cons_of_mem a (ih hc)
      · exact hc

theorem scanDigitsU_digits_nil {dig : Char → Bool} {l : List Char}
    (h : ∀ c ∈ l, dig c = false) : (scanDigitsU dig l).digits = [] := by
  cases hd : (scanDigitsU dig l).digits with
  | nil => rfl
  | cons c t =>
    have hc : c ∈ (scanDigitsU dig l).digits := by
      rw [hd]
      exact List.mem_cons_self c t
    obtain ⟨h1, h2⟩ := mem_scanDigitsU_digits dig hc
    rw [h c h2] at h1
    exact Bool.noConfusion h1

theorem scanDigitsU_append (dig : Char → Bool) :
    ∀ (l r : List Char), (∀ c ∈ l, dig c = true ∧ c ≠ '_') →
      (∀ c ∈ r.take 1, dig c = false ∧ c ≠ '_') →
      scanDigitsU dig (l ++ r) = ⟨l, false, r⟩ := by
  intro l
  induction l with
  | nil =>
    intro r _ hr
    cases r with
    | nil => rfl
    | cons c t =>
      obtain ⟨h1, h2⟩ := hr c (by simp)
      simp only [List.nil_append, scanDigitsU]
      rw [if_neg h2, h1]
      simp
  | cons a t ih =>
    intro r hl hr
    obtain ⟨ha1, ha2⟩ := hl a (List.mem_cons_self a t)
    simp only [List.cons_append, scanDigitsU]
    rw [if_neg ha2, ha1, if_pos rfl]
    simp only [List.append_eq]
    rw [ih r (fun c hc => hl c (List.mem_cons_of_mem a hc)) hr]

theorem scaledRat_nonneg (m b : Nat) (e : Int) : 0 ≤ scaledRat false m b e := by
  unfold scaledRat
  simp only [Bool.false_eq_true, if_false]
  split
  · rw [Rat.mkRat_eq_div]
    apply div_nonneg
    · have hmul : (0 : Int) ≤ (m : Int) * (b : Int) ^ e.toNat :=
        mul_nonneg (Int.natCast_nonneg _) (pow_nonneg (Int.natCast_nonneg _) _)
      exact_mod_cast hmul
    · norm_num
  · rw [Rat.mkRat_eq_div]
    apply div_nonneg
    · exact_mod_cast Int.natCast_nonneg m
    · exact_mod_cast Nat.zero_le _

theorem finalizeFloat_finite {hexm neg : Bool} {mant : List Char} {fracLen : Nat} {e : Int}
    {sawU : Bool} {orig : List Char} {v : GoFloat}
    (h : finalizeFloat hexm neg mant fracLen e sawU orig = some v) :
    ∃ m b ex, v = GoFloat.finite (scaledRat neg m b ex) := by
  unfold finalizeFloat at h
  split at h
  · cases h
  · exact ⟨_, _, _, (Option.some.inj h).symm⟩

theorem parseMantExp_finite {hexm neg : Bool} {body orig : List Char} {v : GoFloat}
    (h : parseMantExp hexm neg body orig = some v) :
    ∃ m b ex, v = GoFloat.finite (scaledRat neg m b ex) := by
  cases hexm with
  | false =>
    unfold parseMantExp at h
    simp only [Bool.false_eq_true, if_false] at h
    split at h
    · cases h
    · split at h
      · exact finalizeFloat_finite h
      · split at h
        · split at h
          · cases h
          · exact finalizeFloat_finite h
        · cases h
  | true =>
    unfold parseMantExp at h
    simp only [eq_self_iff_true, if_true] at h
    split at h
    · cases h
    · split at h
      · cases h
      · split at h
        · split at h
          · cases h
          · exact finalizeFloat_finite h
        · cases h

theorem parseSpecial_shape {cs : List Char} {v : GoFloat} (h : parseSpecial cs = some v) :
    v = GoFloat.nan ∨ ∃ b, v = GoFloat.inf b := by
  unfold parseSpecial at h
  split at h
  · cases h
  · split at h
    · split at h
      · cases h
        exact .inr ⟨_, rfl⟩
      · cases h
    · split at h
      · cases h
        exact .inr ⟨_, rfl⟩
      · split at h
        · cases h
          exact .inl rfl
        · cases h

theorem parseSpecial_neg_inf {cs : List Char} (h : parseSpecial cs = some (.inf true)) :
    '-' ∈ cs := by
  unfold parseSpecial at h
  split at h
  · cases h
  · rename_i c t
    split at h
    · split at h
      · injection h with h1
        injection h1 with h2
        have hc : c = '-' := of_decide_eq_true h2
        subst hc
        exact List.mem_cons_self _ _
      · cases h
    · split at h
      · injection h with h1
        injection h1 with h2
        cases h2
      · split at h
        · injection h with h1
          cases h1
        · cases h

theorem goParseFloatCh_not_lt_zero {cs : List Char} {r : GoFloat}
    (h : goParseFloatCh cs = some r) (hm : '-' ∉ cs) :
    GoFloat.lt r (.finite 0) = false := by
  have hneg : (splitSign cs).1 = false := by
    cases hn : (splitSign cs).1
    · rfl
    · exact absurd (splitSign_neg_mem hn) hm
  simp only [goParseFloatCh] at h
  split at h
  · rename_i v hv
    cases h
    rcases parseSpecial_shape hv with rfl | ⟨b, rfl⟩
    · rfl
    · cases b with
      | false => rfl
      | true => exact absurd (parseSpecial_neg_inf hv) hm
  · split at h <;>
    · obtain ⟨m, b, ex, rfl⟩ := parseMantExp_finite h
      rw [hneg]
      simp only [GoFloat.lt, decide_eq_false_iff_not, not_lt]
      exact scaledRat_nonneg m b ex

theorem ParseINRAmount_not_lt_zero {s : String} {r : GoFloat}
    (h : ParseINRAmount s = some r) (hm : '-' ∉ s.toList) :
    GoFloat.lt r (.finite 0) = false := by
  unfold ParseINRAmount goParseFloat at h
  split at h
  · cases h
  · exact goParseFloatCh_not_lt_zero h (fun hc => hm (mem_inrClean hc))

theorem isHexPre_false_of_no_digit {l : List Char} (h : ∀ c ∈ l, c.isDigit = false) :
    isHexPre l = false := by
  cases l with
  | nil => rfl
  | cons c0 t =>
    cases t with
    | nil => rfl
    | cons c1 r2 =>
      have h0 : c0.isDigit = false := h c0 (List.mem_cons_self _ _)
      have hne : c0 ≠ '0' := by
        intro he
        rw [he] at h0
        exact absurd h0 (by decide)
      simp only [isHexPre]
      rw [decide_eq_false hne]
      rfl

theorem parseMantExp_none_of_no_digit {neg : Bool} {body orig : List Char}
    (h : ∀ c ∈ body, c.isDigit = false) : parseMantExp false neg body orig = none := by
  have h1 : (scanDigitsU Char.isDigit body).digits = [] := scanDigitsU_digits_nil h
  cases hrest : (scanDigitsU Char.isDigit body).rest with
  | nil => simp [parseMantExp, hrest, h1]
  | cons c t =>
    have hmemt : ∀ x ∈ t, x.isDigit = false := by
      intro x hx
      have hx2 : x ∈ (scanDigitsU Char.isDigit body).rest := by
        rw [hrest]
        exact List.mem_cons_of_mem c hx
      exact h x (mem_scanDigitsU_rest Char.isDigit hx2)
    have h2 : (scanDigitsU Char.isDigit t).digits = [] := scanDigitsU_digits_nil hmemt
    by_cases hc : c = '.'
    · simp [parseMantExp, hrest, h1, hc, h2]
    · simp [parseMantExp, hrest, h1, hc]

theorem goParseFloatCh_special_of_no_digit {cs : List Char} {r : GoFloat}
    (h : ∀ c ∈ cs, c.isDigit = false) (hp : goParseFloatCh cs = some r) :
    parseSpecial cs = some r := by
  simp only [goParseFloatCh] at hp
  split at hp
  · rename_i v hv
    rw [hv]
    exact hp
  · rename_i hv
    have hs2 : ∀ c ∈ (splitSign cs).2, c.isDigit = false :=
      fun c hc => h c (mem_splitSign_snd hc)
    rw [isHexPre_false_of_no_digit hs2] at hp
    simp only [Bool.false_eq_true, if_false] at hp
    rw [parseMantExp_none_of_no_digit hs2] at hp
    cases hp

theorem goParseFloatCh_none_of_no_digit {cs : List Char}
    (h : ∀ c ∈ cs, c.isDigit = false) (hs : parseSpecial cs = none) :
    goParseFloatCh cs = none := by
  have hs2 : ∀ c ∈ (splitSign cs).2, c.isDigit = false :=
    fun c hc => h c (mem_splitSign_snd hc)
  simp only [goParseFloatCh, hs]
  rw [isHexPre_false_of_no_digit hs2]
  simp only [Bool.false_eq_true, if_false]
  exact parseMantExp_none_of_no_digit hs2

theorem ParseINRAmount_special_of_no_digit {s : String} {r : GoFloat}
    (h : ∀ c ∈ s.toList, c.isDigit = false) (hp : ParseINRAmount s = some r) :
    r = GoFloat.nan ∨ ∃ b, r = GoFloat.inf b := by
  unfold ParseINRAmount goParseFloat at hp
  split at hp
  · cases hp
  · have hcl : ∀ c ∈ (inrClean s).toList, c.isDigit = false :=
      fun c hc => h c (mem_inrClean hc)
    exact parseSpecial_shape (goParseFloatCh_special_of_no_digit hcl hp)

theorem ParseINRAmount_none_of_no_digit {s : String}
    (h : ∀ c ∈ s.toList, c.isDigit = false)
    (hs : parseSpecial (inrClean s).toList = none) : ParseINRAmount s = none := by
  unfold ParseINRAmount goParseFloat
  split
  · rfl
  · exact goParseFloatCh_none_of_no_digit (fun c hc => h c (mem_inrClean hc)) hs

theorem digitChar_isDigit {d : Nat} (h : d < 10) : (digitChar d).isDigit = true := by
  interval_cases d <;> decide

theorem digitChar_not_ws {d : Nat} (h : d < 10) : (digitChar d).isWhitespace = false := by
  interval_cases d <;> decide

theorem digitChar_ne_comma {d : Nat} (h : d < 10) : (digitChar d != ',') = true := by
  interval_cases d <;> decide

theorem digitChar_ne_underscore {d : Nat} (h : d < 10) : digitChar d ≠ '_' := by
  interval_cases d <;> decide

theorem digitChar_toLower_ne_x {d : Nat} (h : d < 10) : (digitChar d).toLower ≠ 'x' := by
  interval_cases d <;> decide

theorem digitChar_not_sign {d : Nat} (h : d < 10) :
    ¬(digitChar d = '-' ∨ digitChar d = '+') := by
  interval_cases d <;> decide

theorem digitChar_toLower_ne_i {d : Nat} (h : d < 10) : (digitChar d).toLower ≠ 'i' := by
  interval_cases d <;> decide

theorem digitChar_toLower_ne_n {d : Nat} (h : d < 10) : (digitChar d).toLower ≠ 'n' := by
  interval_cases d <;> decide

theorem parseSpecial_digitChar {d : Nat} (h : d < 10) (t : List Char) :
    parseSpecial (digitChar d :: t) = none := by
  have h1 : ¬(List.map Char.toLower (digitChar d :: t) = "inf".toList ∨
      List.map Char.toLower (digitChar d :: t) = "infinity".toList) := by
    rintro (hc | hc)
    · rw [show "inf".toList = ['i', 'n', 'f'] from rfl] at hc
      simp only [List.map_cons, List.cons.injEq] at hc
      exact digitChar_toLower_ne_i h hc.1
    · rw [show "infinity".toList = ['i', 'n', 'f', 'i', 'n', 'i', 't', 'y'] from rfl] at hc
      simp only [List.map_cons, List.cons.injEq] at hc
      exact digitChar_toLower_ne_i h hc.1
  have h2 : ¬(List.map Char.toLower (digitChar d :: t) = "nan".toList) := by
    intro hc
    rw [show "nan".toList = ['n', 'a', 'n'] from rfl] at hc
    simp only [List.map_cons, List.cons.injEq] at hc
    exact digitChar_toLower_ne_n h hc.1
  simp only [parseSpecial, if_neg (digitChar_not_sign h)]
  rw [if_neg h1, if_neg h2]

theorem isHexPre_false_of_tolower {l : List Char} (h : ∀ c ∈ l, c.toLower ≠ 'x') :
    isHexPre l = false := by
  cases l with
  | nil => rfl
  | cons c0 t =>
    cases t with
    | nil => rfl
    | cons c1 r2 =>
      have h1 : c1.toLower ≠ 'x' := h c1 (List.mem_cons_of_mem c0 (List.mem_cons_self c1 r2))
      simp only [isHexPre]
      rw [decide_eq_false h1]
      simp

theorem natOfDigits_chars_aux :
    ∀ (ds : List Nat) (a : Nat), (∀ d ∈ ds, d < 10) →
      List.foldl (fun n c => n * 10 + digVal c) a (digitsToChars ds) =
        List.foldl (fun n d => n * 10 + d) a ds := by
  intro ds
  induction ds with
  | nil => intro a _; rfl
  | cons d t ih =>
    intro a h
    have hd : d < 10 := h d (List.mem_cons_self d t)
    have hval : digVal (digitChar d) = d := by interval_cases d <;> decide
    simp only [digitsToChars, List.map_cons, List.foldl_cons, hval]
    exact ih (a * 10 + d) (fun x hx => h x (List.mem_cons_of_mem d hx))

theorem natOfDigits_chars (ds : List Nat) (h : ∀ d ∈ ds, d < 10) :
    natOfDigits (digitsToChars ds) = natOfDigitVals ds :=
  natOfDigits_chars_aux ds 0 h

theorem digitsToChars_isDigit {ds : List Nat} (h : ∀ d ∈ ds, d < 10) :
    ∀ c ∈ digitsToChars ds, c.isDigit = true := by
  intro c hc
  obtain ⟨d, hd, rfl⟩ := List.mem_map.mp hc
  exact digitChar_isDigit (h d hd)

theorem digitsToChars_scan (ds : List Nat) (h : ∀ d ∈ ds, d < 10) :
    ∀ c ∈ digitsToChars ds, c.isDigit = true ∧ c ≠ '_' := by
  intro c hc
  obtain ⟨d, hd, rfl⟩ := List.mem_map.mp hc
  exact ⟨digitChar_isDigit (h d hd), digitChar_ne_underscore (h d hd)⟩

theorem scaledRat_decValue (ds fs : List Nat) :
    scaledRat false (natOfDigitVals (ds ++ fs)) 10 (0 - (fs.length : Int)) = decValue ds fs := by
  unfold scaledRat decValue
  simp only [Bool.false_eq_true, if_false]
  cases fs with
  | nil => simp
  | cons f ft =>
    simp only [List.length_cons]
    rw [if_neg (by omega)]
    have h10 : (-(0 - ((ft.length + 1 : Nat) : Int))).toNat = ft.length + 1 := by omega
    rw [h10]

theorem goParseFloatCh_digits (ds fs : List Nat) (hds : ∀ d ∈ ds, d < 10)
    (hfs : ∀ d ∈ fs, d < 10) (hne : ds ≠ []) :
    goParseFloatCh (digitsToChars ds ++ (if fs.isEmpty then [] else '.' :: digitsToChars fs)) =
      some (GoFloat.finite (decValue ds fs)) := by
  obtain ⟨d0, dt, rfl⟩ : ∃ d0 dt, ds = d0 :: dt := by
    cases ds with
    | nil => exact absurd rfl hne
    | cons a b => exact ⟨a, b, rfl⟩
  have hd0 : d0 < 10 := hds d0 (List.mem_cons_self d0 dt)
  have hcons : digitsToChars (d0 :: dt) = digitChar d0 :: digitsToChars dt := rfl
  have hdigl := digitsToChars_scan (d0 :: dt) hds
  cases fs with
  | nil =>
    simp only [List.isEmpty_nil, if_pos, List.append_nil]
    have hspec : parseSpecial (digitsToChars (d0 :: dt)) = none := by
      rw [hcons]
      exact parseSpecial_digitChar hd0 _
    have hsplit : splitSign (digitsToChars (d0 :: dt)) = (false, digitsToChars (d0 :: dt)) := by
      rw [hcons]
      exact splitSign_of_digit _ (digitChar_isDigit hd0)
    have hhex : isHexPre (digitsToChars (d0 :: dt)) = false := by
      apply isHexPre_false_of_tolower
      intro c hc
      obtain ⟨d, hd, rfl⟩ := List.mem_map.mp hc
      exact digitChar_toLower_ne_x (hds d hd)
    have hscan : scanDigitsU Char.isDigit (digitsToChars (d0 :: dt)) =
        ⟨digitsToChars (d0 :: dt), false, []⟩ := by
      have h2 := scanDigitsU_append Char.isDigit (digitsToChars (d0 :: dt)) [] hdigl
        (by intro c hc; simp at hc)
      rwa [List.append_nil] at h2
    simp only [goParseFloatCh, hspec, hsplit, hhex, Bool.false_eq_true, if_false]
    simp only [parseMantExp, Bool.false_eq_true, if_false, hscan, List.append_nil,
      List.length_nil, Bool.or_false]
    rw [show (digitsToChars (d0 :: dt)).isEmpty = false from rfl]
    simp only [Bool.false_eq_true, if_false]
    simp only [finalizeFloat, Bool.false_and, Bool.false_eq_true, if_false]
    rw [natOfDigits_chars (d0 :: dt) hds]
    have hsc := scaledRat_decValue (d0 :: dt) []
    rw [List.append_nil] at hsc
    simp only [List.length_nil, Nat.cast_zero] at hsc ⊢
    rw [hsc]
  | cons f ft =>
    simp only [List.isEmpty_cons, if_neg Bool.false_ne_true]
    have hspec : parseSpecial
        (digitsToChars (d0 :: dt) ++ '.' :: digitsToChars (f :: ft)) = none := by
      rw [hcons]
      exact parseSpecial_digitChar hd0 _
    have hsplit : splitSign (digitsToChars (d0 :: dt) ++ '.' :: digitsToChars (f :: ft)) =
        (false, digitsToChars (d0 :: dt) ++ '.' :: digitsToChars (f :: ft)) := by
      rw [hcons]
      exact splitSign_of_digit _ (digitChar_isDigit hd0)
    have hhex : isHexPre (digitsToChars (d0 :: dt) ++ '.' :: digitsToChars (f :: ft)) =
        false := by
      apply isHexPre_false_of_tolower
      intro c hc
      rcases List.mem_append.mp hc with h1 | h1
      · obtain ⟨d, hd, rfl⟩ := List.mem_map.mp h1
        exact digitChar_toLower_ne_x (hds d hd)
      · rcases List.mem_cons.mp h1 with rfl | h2
        · decide
        · obtain ⟨d, hd, rfl⟩ := List.mem_map.mp h2
          exact digitChar_toLower_ne_x (hfs d hd)
    have hscan1 : scanDigitsU Char.isDigit
        (digitsToChars (d0 :: dt) ++ '.' :: digitsToChars (f :: ft)) =
        ⟨digitsToChars (d0 :: dt), false, '.' :: digitsToChars (f :: ft)⟩ :=
      scanDigitsU_append Char.isDigit _ _ hdigl
        (by intro c hc; simp at hc; rw [hc]; exact ⟨by decide, by decide⟩)
    have hscan2 : scanDigitsU Char.isDigit (digitsToChars (f :: ft)) =
        ⟨digitsToChars (f :: ft), false, []⟩ := by
      have h2 := scanDigitsU_append Char.isDigit (digitsToChars (f :: ft)) []
        (digitsToChars_scan (f :: ft) hfs) (by intro c hc; simp at hc)
      rwa [List.append_nil] at h2
    simp only [goParseFloatCh, hspec, hsplit, hhex, Bool.false_eq_true, if_false]
    simp only [parseMantExp, Bool.false_eq_true, if_false, hscan1]
    simp only [if_true]
    simp only [hscan2, Bool.or_false]
    rw [show (digitsToChars (d0 :: dt) ++ digitsToChars (f :: ft)).isEmpty = false from by
      rw [hcons]; rfl]
    simp only [Bool.false_eq_true, if_false]
    simp only [finalizeFloat, Bool.false_and, Bool.false_eq_true, if_false]
    rw [show (digitsToChars (d0 :: dt) ++ digitsToChars (f :: ft) : List Char) =
        digitsToChars ((d0 :: dt) ++ f :: ft) from by simp [digitsToChars]]
    have hall : ∀ d ∈ (d0 :: dt) ++ f :: ft, d < 10 := by
      intro d hd
      rcases List.mem_append.mp hd with h1 | h1
      · exact hds d h1
      · exact hfs d h1
    rw [natOfDigits_chars _ hall]
    have hsc := scaledRat_decValue (d0 :: dt) (f :: ft)
    rw [show ((f :: ft).length : Int) = (((digitsToChars (f :: ft)).length : Nat) : Int) from by
      simp [digitsToChars]] at hsc
    rw [hsc]

theorem stringMk_cons_ne_empty (c : Char) (t : List Char) : String.mk (c :: t) ≠ "" := by
  intro h
  have h2 := congrArg String.data h
  simp at h2

theorem inrClean_formatINR (ds fs : List Nat) (hds : ∀ d ∈ ds, d < 10)
    (hfs : ∀ d ∈ fs, d < 10) :
    inrClean (formatINR ds fs) =
      String.mk (digitsToChars ds ++ (if fs.isEmpty then [] else '.' :: digitsToChars fs)) := by
  have htail : ∀ c ∈ (if fs.isEmpty then ([] : List Char) else '.' :: digitsToChars fs),
      c.isWhitespace = false ∧ (c != ',') = true := by
    intro c hc
    revert hc
    cases fs with
    | nil => intro hc; simp at hc
    | cons f ft =>
      intro hc
      simp only [List.isEmpty_cons, if_neg Bool.false_ne_true] at hc
      rcases List.mem_cons.mp hc with rfl | h2
      · exact ⟨by decide, by decide⟩
      · obtain ⟨d, hd, rfl⟩ := List.mem_map.mp h2
        exact ⟨digitChar_not_ws (hfs d hd), digitChar_ne_comma (hfs d hd)⟩
  have hbody : ∀ c ∈ (digitsToChars ds ++
      (if fs.isEmpty then ([] : List Char) else '.' :: digitsToChars fs)),
      c.isWhitespace = false ∧ (c != ',') = true := by
    intro c hc
    rcases List.mem_append.mp hc with h1 | h1
    · obtain ⟨d, hd, rfl⟩ := List.mem_map.mp h1
      exact ⟨digitChar_not_ws (hds d hd), digitChar_ne_comma (hds d hd)⟩
    · exact htail c h1
  have hws : ∀ c ∈ (formatINR ds fs).toList, c.isWhitespace = false := by
    intro c hc
    rcases List.mem_cons.mp hc with rfl | h1
    · decide
    · exact (hbody c h1).1
  have h1 : goTrimSpace (formatINR ds fs) = formatINR ds fs := by
    unfold goTrimSpace
    rw [trimWsList_eq_self hws]
    rfl
  have hstrip : stripLead ("₹" : String).toList (formatINR ds fs).toList =
      some (digitsToChars ds ++ (if fs.isEmpty then [] else '.' :: digitsToChars fs)) :=
    stripLead_append ['₹'] _
  have h2 : goTrimLead (formatINR ds fs) "₹" =
      String.mk (digitsToChars ds ++ (if fs.isEmpty then [] else '.' :: digitsToChars fs)) := by
    unfold goTrimLead
    rw [hstrip]
  unfold inrClean
  rw [h1, h2]
  congr 1
  exact List.filter_eq_self.mpr (fun c hc => (hbody c hc).2)

theorem ParseINRAmount_formatINR (ds fs : List Nat) (hds : ∀ d ∈ ds, d < 10)
    (hfs : ∀ d ∈ fs, d < 10) (hne : ds ≠ []) :
    ParseINRAmount (formatINR ds fs) = some (GoFloat.finite (decValue ds fs)) := by
  unfold ParseINRAmount
  rw [inrClean_formatINR ds fs hds hfs]
  cases hds2 : ds with
  | nil => exact absurd hds2 hne
  | cons d dt =>
    have hne2 : String.mk (digitsToChars ds ++
        (if fs.isEmpty then ([] : List Char) else '.' :: digitsToChars fs)) ≠ "" := by
      rw [hds2]
      exact stringMk_cons_ne_empty _ _
    rw [hds2] at hne2
    rw [← hds2]
    rw [if_neg (by rw [hds2]; exact hne2)]
    exact goParseFloatCh_digits ds fs hds hfs hne

/-! ## Claim C7: currency parsing -/

/-- C7 counterexample: `ParseINRAmount` delegates to `strconv.ParseFloat`,
which accepts a sign (so parsing `₹-5` succeeds with the negative value)
and the special forms (so the digit-free strings `nan` and `inf` parse
successfully, to NaN and positive infinity - and NaN is not at or above
zero under Go ordering). -/
theorem parseINR_signed_special_counterexample :
    (ParseINRAmount "₹-5" = some (.finite (-5)) ∧
      GoFloat.lt (.finite (-5)) (.finite 0) = true) ∧
    (ParseINRAmount "nan" = some GoFloat.nan ∧
      GoFloat.le (.finite 0) GoFloat.nan = false) ∧
    ParseINRAmount "inf" = some (.inf false) := by
  decide

/-- C7 (amended): currency parsing strips the symbol and the separators and
parses the remainder with `strconv.ParseFloat`'s full syntax.  A successful
parse of text containing no minus sign is never below zero under Go's
ordering (it is non-negative, +Inf, or NaN, which compares false); the
empty string, and digit-free text other than the `inf`/`nan` special
forms, report failure rather than a zero value with success - a digit-free
success is always NaN or an infinity; and formatting a positive amount as
the currency symbol followed by its decimal numeral and parsing it back
reproduces the value exactly. -/
theorem parseINR_currency_spec :
    (∀ s r, ParseINRAmount s = some r → '-' ∉ s.toList →
      GoFloat.lt r (.finite 0) = false) ∧
    ParseINRAmount "" = none ∧
    (∀ s, (∀ c ∈ s.toList, c.isDigit = false) →
      parseSpecial (inrClean s).toList = none → ParseINRAmount s = none) ∧
    (∀ s r, (∀ c ∈ s.toList, c.isDigit = false) → ParseINRAmount s = some r →
      r = GoFloat.nan ∨ ∃ b, r = GoFloat.inf b) ∧
    (∀ ds fs, (∀ d ∈ ds, d < 10) → (∀ d ∈ fs, d < 10) → ds ≠ [] →
      0 < decValue ds fs →
      ParseINRAmount (formatINR ds fs) = some (.finite (decValue ds fs))) := by
  refine ⟨?_, by decide, ?_, ?_, ?_⟩
  · intro s r h hm
    exact ParseINRAmount_not_lt_zero h hm
  · intro s h hs
    exact ParseINRAmount_none_of_no_digit h hs
  · intro s r h hp
    exact ParseINRAmount_special_of_no_digit h hp
  · intro ds fs hds hfs hne _
    exact ParseINRAmount_formatINR ds fs hds hfs hne

/-- Witness for C7's amended theorem at `₹2.50`, a digit-free plain string,
and an unsigned NaN parse. -/
theorem parseINR_currency_spec_witness :
    ParseINRAmount (formatINR [2] [5, 0]) = some (.finite (decValue [2] [5, 0])) ∧
    ParseINRAmount "abc" = none ∧
    GoFloat.lt GoFloat.nan (.finite 0) = false :=
  ⟨parseINR_currency_spec.2.2.2.2 [2] [5, 0] (by decide) (by decide) (by decide) (by decide),
   parseINR_currency_spec.2.2.1 "abc" (by decide) (by decide),
   parseINR_currency_spec.1 "nan" GoFloat.nan (by decide) (by decide)⟩

/-! ## Claim C1: total/balance guard before payment submission -/

/-- C1 counterexample: `ExtractOrderTotal` returns the `.grand-total-sum`
text verbatim and `strconv.ParseFloat` accepts `nan`, so the extracted
total can parse to NaN; both guard comparisons (`totalAmount <= 0` and
`balAmount < totalAmount`) are then false under Go float ordering, and the
stage reaches `SubmitPayment` although the total is not a positive amount
covered by the balance. -/
theorem paymentGuard_nan_counterexample :
    ParseINRAmount "nan" = some GoFloat.nan ∧
    GoFloat.le GoFloat.nan (.finite 0) = false ∧
    GoFloat.lt (.finite 100) GoFloat.nan = false ∧
    paymentGuard (some "nan") (some "₹100") = .submitPayment := by
  decide

/-- C1 (amended): the payment stage submits payment only when the order
total was extracted and parses to a value not at-or-below zero under Go
ordering, and no extracted-and-parsed balance is below it under Go
ordering; when the parsed total is a finite number, submission does imply
it is strictly positive and every finite parsed balance covers it, but a
NaN total also passes both guards.  A missing total, an unparsable total, a
total at or below zero, and a balance below the total each abort with their
error before the payment-submission request. -/
theorem paymentGuard_balance_safety (totalE balE : Option String) :
    (paymentGuard totalE balE = .submitPayment →
      ∃ ts t, totalE = some ts ∧ ParseINRAmount ts = some t ∧
        GoFloat.le t (.finite 0) = false ∧
        ∀ bs b, balE = some bs → ParseINRAmount bs = some b → GoFloat.lt b t = false) ∧
    (∀ ts qt, totalE = some ts → ParseINRAmount ts = some (.finite qt) →
      paymentGuard totalE balE = .submitPayment →
      0 < qt ∧ ∀ bs qb, balE = some bs → ParseINRAmount bs = some (.finite qb) → qt ≤ qb) ∧
    (totalE = none → paymentGuard totalE balE = .abortNoTotal) ∧
    (∀ ts, totalE = some ts → ParseINRAmount ts = none →
      paymentGuard totalE balE = .abortUnparsableTotal ts) ∧
    (∀ ts t, totalE = some ts → ParseINRAmount ts = some t →
      GoFloat.le t (.finite 0) = true →
      paymentGuard totalE balE = .abortInvalidTotal ts) ∧
    (∀ ts t bs b, totalE = some ts → ParseINRAmount ts = some t →
      GoFloat.le t (.finite 0) = false →
      balE = some bs → ParseINRAmount bs = some b → GoFloat.lt b t = true →
      paymentGuard totalE balE = .abortInsufficientBalance bs ts) := by
  refine ⟨?_, ?_, ?_, ?_, ?_, ?_⟩
  · intro h
    rcases totalE with _ | ts
    · simp [paymentGuard] at h
    · rcases hpt : ParseINRAmount ts with _ | t
      · simp [paymentGuard, hpt] at h
      · cases hle : GoFloat.le t (.finite 0) with
        | true => simp [paymentGuard, hpt, hle] at h
        | false =>
          refine ⟨ts, t, rfl, hpt, hle, ?_⟩
          intro bs b hbE hpb
          subst hbE
          cases hbt : GoFloat.lt b t with
          | true => simp [paymentGuard, hpt, hle, hpb, hbt] at h
          | false => rfl
  · intro ts qt hE hpt h
    subst hE
    cases hle : GoFloat.le (GoFloat.finite qt) (GoFloat.finite 0) with
    | true => simp [paymentGuard, hpt, hle] at h
    | false =>
      have hqt : 0 < qt := not_le.mp (by simpa [GoFloat.le] using hle)
      refine ⟨hqt, ?_⟩
      intro bs qb hbE hpb
      subst hbE
      cases hbt : GoFloat.lt (GoFloat.finite qb) (GoFloat.finite qt) with
      | true => simp [paymentGuard, hpt, hle, hpb, hbt] at h
      | false => exact not_lt.mp (by simpa [GoFloat.lt] using hbt)
  · intro h
    rw [h]
    rfl
  · intro ts hE hp
    rw [hE]
    simp [paymentGuard, hp]
  · intro ts t hE hp hle
    rw [hE]
    simp [paymentGuard, hp, hle]
  · intro ts t bs b hE hp hle hbE hpb hlt
    rw [hE, hbE]
    simp [paymentGuard, hp, hle, hpb, hlt]

/-- Witness for C1 at the spec's scenario: total `₹250`, balance `₹100`
aborts with the insufficient-balance error. -/
theorem paymentGuard_balance_safety_witness :
    paymentGuard (some "₹250") (some "₹100") = .abortInsufficientBalance "₹100" "₹250" :=
  (paymentGuard_balance_safety (some "₹250") (some "₹100")).2.2.2.2.2 "₹250"
    (GoFloat.finite 250) "₹100" (GoFloat.finite 100) rfl (by decide) (by decide) rfl
    (by decide) (by decide)

/-! ## Claims C3 and C9: cart reconciliation guards -/

theorem mem_filterExtraItems :
    ∀ (items : List CartItem) (pid : String) (item : CartItem), item ∈ items →
      (allowedCartIDs pid).contains (goToLower (goTrimSpace item.productID)) = false →
      (if goToLower (goTrimSpace item.productID) = "" then "unknown-item" else item.productID)
        ∈ filterExtraItems items pid := by
  intro items pid
  induction items with
  | nil => intro item h; simp at h
  | cons a t ih =>
    intro item hmem hallow
    rcases List.mem_cons.mp hmem with rfl | hmem2
    · by_cases hid : goToLower (goTrimSpace item.productID) = ""
      · simp [filterExtraItems, hid]
      · have hnotmem : goToLower (goTrimSpace item.productID) ∉ allowedCartIDs pid := by
          simpa using hallow
        simp [filterExtraItems, hid, hnotmem]
    · have hrec := ih item hmem2 hallow
      by_cases hid : goToLower (goTrimSpace a.productID) = ""
      · simp only [filterExtraItems, hid, if_pos]
        exact List.mem_cons_of_mem _ hrec
      · by_cases hc : (allowedCartIDs pid).contains (goToLower (goTrimSpace a.productID)) = true
        · simp only [filterExtraItems, hid, if_neg, hc, if_pos]
          exact hrec
        · simp only [filterExtraItems, hid, if_neg, hc]
          simp only [Bool.false_eq_true, if_false]
          exact List.mem_cons_of_mem _ hrec

/-- C3: whenever non-allow-listed cart lines are present and the override
flag is unset, the reconciliation stage returns the extra-items error
carrying the offending names, issues zero add or update calls, and every
offending line's identifier is among the names carried. -/
theorem reconcileCart_extra_guard (v : CartView) (q : Nat)
    (hex : filterExtraItems v.items productID20L ≠ []) :
    reconcileCart v q false = .error (.extraItems (filterExtraItems v.items productID20L)) ∧
    reconcileActions (reconcileCart v q false) = [] ∧
    (∀ item ∈ v.items,
      (allowedCartIDs productID20L).contains (goToLower (goTrimSpace item.productID)) = false →
      (if goToLower (goTrimSpace item.productID) = "" then "unknown-item" else item.productID)
        ∈ filterExtraItems v.items productID20L) := by
  have hitems : v.items ≠ [] := by
    intro h
    apply hex
    rw [h]
    rfl
  have hpf : cartParseFailure v = false := by
    unfold cartParseFailure
    cases v.count with
    | none => rfl
    | some c =>
      cases hvi : v.items with
      | nil => exact absurd hvi hitems
      | cons a t => simp [hvi]
  have hie : (filterExtraItems v.items productID20L).isEmpty = false := by
    cases hfe : filterExtraItems v.items productID20L with
    | nil => exact absurd hfe hex
    | cons a t => rfl
  have hmain :
      reconcileCart v q false = .error (.extraItems (filterExtraItems v.items productID20L)) := by
    unfold reconcileCart
    rw [hpf]
    simp [hie]
  exact ⟨hmain, by rw [hmain]; rfl,
    fun item hm ha => mem_filterExtraItems v.items productID20L item hm ha⟩

/-- Witness for C3: a cart holding a foreign product aborts naming it. -/
theorem reconcileCart_extra_guard_witness :
    reconcileCart ⟨[⟨"OTHER-1", "u1", 1⟩, ⟨"BIS-20LTR01-90", "u2", 2⟩], some 2⟩ 2 false =
      .error (.extraItems ["OTHER-1"]) := by
  have h :=
    (reconcileCart_extra_guard ⟨[⟨"OTHER-1", "u1", 1⟩, ⟨"BIS-20LTR01-90", "u2", 2⟩], some 2⟩ 2
      (by decide)).1
  rw [show filterExtraItems [⟨"OTHER-1", "u1", 1⟩, ⟨"BIS-20LTR01-90", "u2", 2⟩] productID20L =
      ["OTHER-1"] from by decide] at h
  exact h

/-- C9: when the target line already sits in the cart at the requested
quantity (with a usable uuid), the reconciliation stage issues zero
update-quantity and zero add-product calls. -/
theorem reconcileCart_noop (v : CartView) (q : Nat) (ax : Bool) (uuid : String)
    (hfind : extractCartItem v.items productID20L = some (uuid, q)) (hu : uuid ≠ "") :
    reconcileActions (reconcileCart v q ax) = [] := by
  by_cases hpf : cartParseFailure v = true
  · simp [reconcileCart, hpf, reconcileActions]
  · by_cases hexg : (!(filterExtraItems v.items productID20L).isEmpty && !ax) = true
    · simp [reconcileCart, hpf, hexg, reconcileActions]
    · simp [reconcileCart, hpf, hexg, hfind, hu, reconcileActions]

/-- Witness for C9: a cart already at quantity 2 yields no cart calls. -/
theorem reconcileCart_noop_witness :
    reconcileActions (reconcileCart ⟨[⟨"BIS-20LTR01-90", "u1", 2⟩], some 1⟩ 2 false) = [] :=
  reconcileCart_noop ⟨[⟨"BIS-20LTR01-90", "u1", 2⟩], some 1⟩ 2 false "u1" (by decide) (by decide)

/-! ## Claim C5: confirmation loop cadence and retry-on-zero -/

theorem confirmFrom_attempts_le (envs : Nat → AttemptEnv) (q : Nat) (ax : Bool) :
    ∀ (fuel a : Nat), (confirmFrom envs q ax a fuel).attempts ≤ fuel := by
  intro fuel
  induction fuel with
  | zero => intro a; simp [confirmFrom]
  | succ f ih =>
    intro a
    unfold confirmFrom
    split
    · show 1 ≤ f + 1
      omega
    · show 1 ≤ f + 1
      omega
    · split
      · show 1 ≤ f + 1
        omega
      · show (confirmFrom envs q ax (a + 1) f).attempts + 1 ≤ f + 1
        have h2 := ih (a + 1)
        omega

theorem confirmFrom_attempts_pos (envs : Nat → AttemptEnv) (q : Nat) (ax : Bool)
    (fuel a : Nat) (hf : 1 ≤ fuel) : 1 ≤ (confirmFrom envs q ax a fuel).attempts := by
  cases fuel with
  | zero => omega
  | succ f =>
    unfold confirmFrom
    split
    · show 1 ≤ 1
      omega
    · show 1 ≤ 1
      omega
    · split
      · show 1 ≤ 1
        omega
      · show 1 ≤ (confirmFrom envs q ax (a + 1) f).attempts + 1
        omega

theorem confirmFrom_delays (envs : Nat → AttemptEnv) (q : Nat) (ax : Bool) :
    ∀ (fuel a : Nat),
      (confirmFrom envs q ax a fuel).delays =
        (List.range ((confirmFrom envs q ax a fuel).attempts - 1)).map
          (fun i => (a + i) * 500) := by
  intro fuel
  induction fuel with
  | zero => intro a; simp [confirmFrom]
  | succ f ih =>
    intro a
    unfold confirmFrom
    split
    · simp
    · simp
    · split
      · simp
      · show a * 500 :: (confirmFrom envs q ax (a + 1) f).delays =
          List.map (fun i => (a + i) * 500)
            (List.range ((confirmFrom envs q ax (a + 1) f).attempts + 1 - 1))
        rename_i hz
        have hpos : 1 ≤ (confirmFrom envs q ax (a + 1) f).attempts :=
          confirmFrom_attempts_pos envs q ax f (a + 1) (by omega)
        obtain ⟨m, hm⟩ : ∃ m, (confirmFrom envs q ax (a + 1) f).attempts = m + 1 :=
          ⟨(confirmFrom envs q ax (a + 1) f).attempts - 1, by omega⟩
        have hrec := ih (a + 1)
        rw [hm] at hrec
        rw [hm, hrec]
        simp only [Nat.add_sub_cancel]
        rw [List.range_succ_eq_map, List.map_cons, List.map_map]
        simp only [Nat.add_zero]
        have hteq : List.map (fun i => (a + 1 + i) * 500) (List.range m) =
            List.map ((fun i => (a + i) * 500) ∘ Nat.succ) (List.range m) := by
          apply List.map_congr_left
          intro i _
          simp only [Function.comp_apply]
          omega
        rw [hteq]

theorem confirmFrom_progress (envs : Nat → AttemptEnv) (q : Nat) (ax : Bool) :
    ∀ (n fuel a : Nat), n < fuel →
      (∀ j, a ≤ j → j < a + n → ∃ e, runAttempt (envs j) q ax = .retry e) →
      n + 1 ≤ (confirmFrom envs q ax a fuel).attempts := by
  intro n
  induction n with
  | zero =>
    intro fuel a hn _
    exact confirmFrom_attempts_pos envs q ax fuel a (by omega)
  | succ m ih =>
    intro fuel a hn hr
    obtain ⟨e, he⟩ := hr a (le_refl a) (by omega)
    cases fuel with
    | zero => omega
    | succ f =>
      unfold confirmFrom
      split
      · rename_i heq
        rw [he] at heq
        simp at heq
      · rename_i e2 heq
        rw [he] at heq
        simp at heq
      · split
        · rename_i hz
          omega
        · show m + 1 + 1 ≤ (confirmFrom envs q ax (a + 1) f).attempts + 1
          rename_i hz
          have h2 := ih f (a + 1) (by omega) (fun j hj1 hj2 => hr j (by omega) (by omega))
          omega


theorem runAttempt_zero_qty (env : AttemptEnv) (q : Nat) (ax : Bool) (v : CartView)
    (uuid : String) (hq : 0 < q) (hf : env.fetch = .page v)
    (hpf : cartParseFailure v = false)
    (hexg : (!(filterExtraItems v.items productID20L).isEmpty && !ax) = false)
    (hfind : extractCartItem v.items productID20L = some (uuid, 0)) (hu : uuid ≠ "") :
    runAttempt env q ax = .success ∨ ∃ e, runAttempt env q ax = .retry e := by
  unfold runAttempt
  split
  · rename_i heq
    rw [hf] at heq
    simp at heq
  · rename_i heq
    rw [hf] at heq
    simp at heq
  · rename_i v2 heq
    rw [hf] at heq
    injection heq with hv
    subst hv
    simp only [hpf, Bool.false_eq_true, if_false, hexg, hfind]
    rw [if_pos hu]
    simp only [eq_self_iff_true, if_true]
    cases env.update1 with
    | ok => left; rfl
    | failed =>
      rw [if_neg (by omega : ¬(0 = q))]
      cases env.update2 with
      | ok => right; exact ⟨_, rfl⟩
      | failed => right; exact ⟨_, rfl⟩

/-- C5: the confirmation loop polls the cart at most 4 times, sleeping
`attempt * 500` milliseconds between successive polls; an iteration that
observes the target line at quantity exactly zero never returns an error
(it either succeeds through the corrective update or records a retryable
reason); and while iterations keep ending in a retryable reason the loop
keeps polling instead of erroring. -/
theorem confirmCartQuantity_spec (envs : Nat → AttemptEnv) (q : Nat) (ax : Bool)
    (hq : 0 < q) :
    (confirmCartQuantity envs q ax).attempts ≤ confirmMaxAttempts ∧
    (confirmCartQuantity envs q ax).delays =
      (List.range ((confirmCartQuantity envs q ax).attempts - 1)).map
        (fun i => (1 + i) * 500) ∧
    (∀ env v uuid, env.fetch = .page v → cartParseFailure v = false →
      (!(filterExtraItems v.items productID20L).isEmpty && !ax) = false →
      extractCartItem v.items productID20L = some (uuid, 0) → uuid ≠ "" →
      runAttempt env q ax = .success ∨ ∃ e, runAttempt env q ax = .retry e) ∧
    (∀ n, n < confirmMaxAttempts →
      (∀ j, 1 ≤ j → j < 1 + n → ∃ e, runAttempt (envs j) q ax = .retry e) →
      n + 1 ≤ (confirmCartQuantity envs q ax).attempts) := by
  refine ⟨confirmFrom_attempts_le envs q ax confirmMaxAttempts 1,
    confirmFrom_delays envs q ax confirmMaxAttempts 1,
    fun env v uuid hf hpf hexg hfind hu =>
      runAttempt_zero_qty env q ax v uuid hq hf hpf hexg hfind hu,
    fun n hn hr => confirmFrom_progress envs q ax n confirmMaxAttempts 1 hn hr⟩

/-- Witness for C5 on a run whose every poll fails transiently. -/
theorem confirmCartQuantity_spec_witness :
    (confirmCartQuantity (fun _ => ⟨.failed, .ok, .ok⟩) 2 false).attempts ≤
      confirmMaxAttempts :=
  (confirmCartQuantity_spec (fun _ => ⟨.failed, .ok, .ok⟩) 2 false (by decide)).1

/-! ## Claim C4: order-placement success signal -/

/-- C4 counterexample: a 301 Moved Permanently response - an HTTP redirect,
unfollowed, whose Location is the order-placed page with a non-empty
orderID parameter - is reported as failure, because the code accepts only
statuses 302 and 303; so success is not equivalent to receiving a redirect
with the right Location. -/
theorem orderPlacement_301_counterexample :
    goContains "/orderplaced?orderID=A1" "/orderplaced" = true ∧
    findOrderID "/orderplaced?orderID=A1".toList = some "A1" ∧
    orderPlacementOutcome ⟨301, "/orderplaced?orderID=A1"⟩ = .error (.badStatus 301) := by
  decide

/-- C4 (amended): the order flow reports placement success, with the
extracted identifier, exactly when the unfollowed response's status is 302
or 303 and its Location contains the order-placed page path and the orderID
pattern matches (its capture is necessarily non-empty); every other
response - wrong status, missing or foreign Location, or no identifier -
is reported as failure. -/
theorem orderPlacement_characterization (resp : RedirectResponse) (id : String) :
    orderPlacementOutcome resp = .ok id ↔
      ((resp.status = 302 ∨ resp.status = 303) ∧
        goContains resp.location "/orderplaced" = true ∧
        findOrderID resp.location.toList = some id ∧ id ≠ "") := by
  unfold orderPlacementOutcome PlaceOrder
  constructor
  · intro h
    by_cases h1 : resp.status ≠ 302 ∧ resp.status ≠ 303
    · simp [h1] at h
    · rw [if_neg h1] at h
      by_cases h2 : resp.location = ""
      · simp [h2] at h
      · rw [if_neg h2] at h
        by_cases h3 : goContains resp.location "/orderplaced" = true
        · rw [if_neg (by simp [h3])] at h
          cases hfind : findOrderID resp.location.toList with
          | none => rw [hfind] at h; simp at h
          | some oid =>
            rw [hfind] at h
            by_cases h4 : oid = ""
            · simp [h4] at h
            · simp only [h4, Bool.false_eq_true, if_neg h4] at h
              cases h
              exact ⟨by omega, h3, rfl, h4⟩
        · rw [if_pos (by simpa using h3)] at h
          simp at h
  · intro ⟨hst, hcont, hfind, hid⟩
    have h1 : ¬(resp.status ≠ 302 ∧ resp.status ≠ 303) := by omega
    have h2 : resp.location ≠ "" := by
      intro he
      rw [he] at hcont
      revert hcont
      decide
    rw [if_neg h1, if_neg h2, if_neg (by simp [hcont]), hfind]
    simp [hid]

/-- Witness for C4's amended theorem: a 302 redirect with an identifier. -/
theorem orderPlacement_characterization_witness :
    orderPlacementOutcome ⟨302, "/orderplaced?orderID=A1"⟩ = .ok "A1" :=
  (orderPlacement_characterization ⟨302, "/orderplaced?orderID=A1"⟩ "A1").mpr (by decide)

/-! ## Claim C6: CSRF extraction strategy order -/

/-- C6 counterexample: on a page whose raw markup matches the token regex
inside plain text with value `A` while the document's input named
csrf_token carries value `B`, the code returns `A` (regex first) where the
spec's DOM-first ordering would return `B` - refuting the claimed strategy
order. -/
theorem extractCSRFToken_order_counterexample :
    ExtractCSRFToken ⟨"<input value=\"B\" name=\"csrf_token\"><p>name=\"csrf_token\" value=\"A\"</p>",
        [⟨"csrf_token", some "B"⟩]⟩ = .ok "A" ∧
    specOrderedCSRFToken ⟨"<input value=\"B\" name=\"csrf_token\"><p>name=\"csrf_token\" value=\"A\"</p>",
        [⟨"csrf_token", some "B"⟩]⟩ = .ok "B" ∧
    domCsrfValue ⟨"<input value=\"B\" name=\"csrf_token\"><p>name=\"csrf_token\" value=\"A\"</p>",
        [⟨"csrf_token", some "B"⟩]⟩ = some "B" := by
  decide

/-- C6 (amended): CSRF extraction applies the regex over the raw markup
first; only if that yields no match does it look up the first input named
csrf_token in the DOM; and it returns the not-found error exactly when
neither strategy yields a value. -/
theorem extractCSRFToken_spec (doc : HtmlDoc) :
    (∀ tok, csrfRegexFind doc.raw = some tok → ExtractCSRFToken doc = .ok tok) ∧
    (csrfRegexFind doc.raw = none → ∀ v, domCsrfValue doc = some v →
      ExtractCSRFToken doc = .ok v) ∧
    (ExtractCSRFToken doc = .error () ↔
      csrfRegexFind doc.raw = none ∧ domCsrfValue doc = none) := by
  refine ⟨?_, ?_, ?_⟩
  · intro tok h
    simp [ExtractCSRFToken, h]
  · intro h v hv
    simp [ExtractCSRFToken, h, hv]
  · cases hr : csrfRegexFind doc.raw <;> cases hd : domCsrfValue doc <;>
      simp [ExtractCSRFToken, hr, hd]

/-- Witness for C6's amended theorem: regex miss falls back to the DOM. -/
theorem extractCSRFToken_spec_witness :
    ExtractCSRFToken ⟨"<input>", [⟨"csrf_token", some "B"⟩]⟩ = .ok "B" :=
  (extractCSRFToken_spec ⟨"<input>", [⟨"csrf_token", some "B"⟩]⟩).2.1 (by decide) "B" (by decide)

/-! ## Claim C8: redirect-path classification -/

/-- C8: for a response landing off the expected (non-blank) path, the
client classifies it as not-authenticated exactly when the landed path is
root, empty, or case-insensitively contains login, account or home; every
other mismatch is the distinct unexpected-redirect error carrying the
landed path. -/
theorem validateResponsePath_spec (path pre : String) (hpre : pre ≠ "")
    (hmiss : goStartsWith path pre = false) :
    (validateResponsePath path pre = .notAuthenticated ↔
      (path = "/" ∨ path = "" ∨ goContains (goToLower path) "login" = true ∨
        goContains (goToLower path) "account" = true ∨
        goContains (goToLower path) "home" = true)) ∧
    (¬(path = "/" ∨ path = "" ∨ goContains (goToLower path) "login" = true ∨
        goContains (goToLower path) "account" = true ∨
        goContains (goToLower path) "home" = true) →
      validateResponsePath path pre = .unexpectedRedirect path) := by
  unfold validateResponsePath
  rw [if_neg (by simp [hpre, hmiss])]
  by_cases h1 : path = "/" ∨ path = ""
  · rw [if_pos (by simpa using h1)]
    constructor
    · constructor
      · intro _
        tauto
      · intro _
        rfl
    · intro hno
      exact absurd (by tauto) hno
  · rw [if_neg (by simpa using h1)]
    by_cases h2 : goContains (goToLower path) "login" = true ∨
        goContains (goToLower path) "account" = true ∨
        goContains (goToLower path) "home" = true
    · rw [if_pos (by simp only [Bool.or_eq_true]; tauto)]
      constructor
      · constructor
        · intro _
          tauto
        · intro _
          rfl
      · intro hno
        exact absurd (by tauto) hno
    · rw [if_neg (by simp only [Bool.or_eq_true]; tauto)]
      constructor
      · constructor
        · intro hcontra
          cases hcontra
        · intro hyes
          exact absurd (by tauto) (by tauto)
      · intro _
        rfl

/-- Witness for C8: landing on a login-like path is session expiry, and an
unrelated path is the distinct unexpected-redirect error. -/
theorem validateResponsePath_spec_witness :
    validateResponsePath "/Login/start" "/mycart" = .notAuthenticated ∧
    validateResponsePath "/weird" "/mycart" = .unexpectedRedirect "/weird" :=
  ⟨((validateResponsePath_spec "/Login/start" "/mycart" (by decide) (by decide)).1).mpr
      (by decide),
   (validateResponsePath_spec "/weird" "/mycart" (by decide) (by decide)).2 (by decide)⟩

/-! ## Claim C10: profile path confinement -/

/-- C10: a profile name containing a parent-directory sequence or a path
separator is rejected with an error, and every accepted name resolves to
exactly the file `name.json` directly inside the profiles directory. -/
theorem profilePath_spec (dir name : String) :
    ((goContains name ".." = true ∨ containsPathSep name = true) →
      ∃ e, ProfilePath dir name = .error e) ∧
    (∀ p, ProfilePath dir name = .ok p →
      p = dir ++ "/" ++ name ++ ".json" ∧ goContains name ".." = false ∧
        containsPathSep name = false ∧ name ≠ "") := by
  constructor
  · intro h
    by_cases hn : name = ""
    · exact ⟨.emptyName, by simp [ProfilePath, hn]⟩
    · refine ⟨.invalidName, ?_⟩
      unfold ProfilePath
      rw [if_neg hn]
      unfold validateProfileName
      rw [if_pos (by rcases h with h | h <;> simp [h])]
  · intro p hp
    unfold ProfilePath at hp
    by_cases hn : name = ""
    · simp [hn] at hp
    · rw [if_neg hn] at hp
      unfold validateProfileName at hp
      by_cases hbad : (goContains name ".." || containsPathSep name) = true
      · rw [if_pos hbad] at hp
        simp at hp
      · rw [if_neg hbad] at hp
        by_cases hbase : goFilepathBase name ≠ name
        · rw [if_pos hbase] at hp
          simp at hp
        · rw [if_neg hbase] at hp
          cases hp
          simp only [Bool.or_eq_true] at hbad
          push_neg at hbad
          exact ⟨rfl, by simpa using hbad.1, by simpa using hbad.2, hn⟩

/-- Witness for C10: a traversal name errors; a plain name resolves inside
the directory. -/
theorem profilePath_spec_witness :
    (∃ e, ProfilePath "/cfg/profiles" "../etc/passwd" = .error e) ∧
    ProfilePath "/cfg/profiles" "work" = .ok "/cfg/profiles/work.json" :=
  ⟨(profilePath_spec "/cfg/profiles" "../etc/passwd").1 (Or.inl (by decide)),
   by decide⟩

/-! ## Claim C2: session loss during the order run -/

theorem runOrderStagedAux_sublist (outcome : OrderStep → OrderStepOutcome) :
    ∀ l : List OrderStep, (runOrderStagedAux outcome l).executed.Sublist l := by
  intro l
  induction l with
  | nil => exact List.Sublist.refl []
  | cons s rest ih =>
    simp only [runOrderStagedAux]
    cases houtcome : outcome s with
    | ok =>
      simp only [houtcome]
      exact List.Sublist.cons₂ s ih
    | notAuthenticated =>
      simp only [houtcome]
      exact List.Sublist.cons₂ s (List.nil_sublist rest)
    | failed =>
      simp only [houtcome]
      exact List.Sublist.cons₂ s (List.nil_sublist rest)

/-- C2: `run()` dispatches `order` straight to `runOrder`, which executes
its stages in source order and returns the first failure unchanged; when
the session check reports `ErrNotAuthenticated`, the run stops there with
that error having executed no later stage - the function contains no
confirmation prompt, no OTP session refresh and no order retry, so the
claimed consent-gated reauthentication flow never happens. -/
theorem runOrderStaged_session_loss :
    runOrderStaged (fun s => if s = .verifySession then .notAuthenticated else .ok) =
      ⟨.error .notAuthenticated, [.verifySession]⟩ ∧
    (∀ outcome, (runOrderStaged outcome).executed.Sublist orderSteps) ∧
    (∀ outcome, outcome .verifySession = .notAuthenticated →
      runOrderStaged outcome = ⟨.error .notAuthenticated, [.verifySession]⟩) := by
  refine ⟨by decide, ?_, ?_⟩
  · intro outcome
    exact runOrderStagedAux_sublist outcome orderSteps
  · intro outcome h
    simp [runOrderStaged, orderSteps, runOrderStagedAux, h]

/-- Witness for C2's theorem: with every stage reporting session loss the
run aborts at the session check alone. -/
theorem runOrderStaged_session_loss_witness :
    runOrderStaged (fun _ => OrderStepOutcome.notAuthenticated) =
      ⟨.error .notAuthenticated, [.verifySession]⟩ :=
  runOrderStaged_session_loss.2.2 (fun _ => OrderStepOutcome.notAuthenticated) rfl

end BisleriCLI
